import Mathlib

/-!
Verification of the accelerator-microbenchmarks orchestration and reporting core.

The definitions below are shallow embeddings of the Python source:
  * src/run_benchmark.py   (sweep expansion, SAME_AS substitution, argument filtering)
  * src/report_generator.py (dimension inference, pivot-table synthesis, record reading)

Scalar values occurring in parameter sets and records are modelled by the type
Value (numbers as rationals, strings as String); machine floats in the
scenarios of interest (10.0, 18.0, 30.0, ...) are exactly representable.
Python dicts are modelled as association lists in insertion order, which is
how Python (3.7+) dicts iterate.
-/

/-- Scalar values of parameter sets and records: YAML/JSON numbers and strings. -/
inductive Value where
  | num (q : ℚ)
  | str (s : String)
  deriving DecidableEq, Repr

/-- True when the value is numeric. -/
def Value.isNum : Value → Bool
  | .num _ => true
  | .str _ => false

/-- A record / parameter set: a string-keyed map in insertion order (Python dict). -/
abbrev Record := List (String × Value)

/-! ## Sweep expansion (run_benchmark.py, generate_benchmark_params_sweeping, lines 166-184)

A range object of a sweep spec.  In the source the fields are read with
value.get("start"), value.get("end"), value.get("multiplier", None),
value.get("increase_by", None); absent stepping modes are None.  YAML integer
scalars are modelled as Int. -/
structure RangeSpec where
  start : Int
  end_ : Int
  multiplier : Option Int
  increase_by : Option Int
  deriving DecidableEq, Repr

/-- Python truthiness of an optional number: None and 0 are falsy.  The source
branches on "if multiplier:" / "elif increase_by:". -/
def truthy : Option Int → Bool
  | some v => v != 0
  | none => false

/-- Outcome of the value-generation while-loop: a produced list, the
ValueError raised when neither stepping mode is truthy, or non-termination
(modelled by fuel exhaustion). -/
inductive SweepResult where
  | ok (values : List Int)
  | err
  | diverge
  deriving DecidableEq, Repr

/-- The while-loop of generate_benchmark_params_sweeping:
while current <= end: append current; multiply by multiplier if truthy, else
add increase_by if truthy, else raise ValueError.  Fuel makes the possibly
non-terminating loop a total function; .diverge means the loop was still
running when the fuel ran out. -/
def sweepLoop (r : RangeSpec) : Nat → Int → List Int → SweepResult
  | 0, _, _ => .diverge
  | fuel + 1, current, acc =>
    if current ≤ r.end_ then
      if truthy r.multiplier then
        sweepLoop r fuel (current * r.multiplier.getD 0) (acc ++ [current])
      else if truthy r.increase_by then
        sweepLoop r fuel (current + r.increase_by.getD 0) (acc ++ [current])
      else .err
    else .ok acc

/-- Run the value-generation loop of one range object from its start value. -/
def sweepValues (fuel : Nat) (r : RangeSpec) : SweepResult :=
  sweepLoop r fuel r.start []

/-- The loop terminated normally. -/
def sweepOk : SweepResult → Bool
  | .ok _ => true
  | _ => false

/-- The produced value list (empty on error or divergence). -/
def sweepList : SweepResult → List Int
  | .ok vs => vs
  | _ => []

/-- Fuel sufficient for every terminating run: the loop advances its counter
by at least one per iteration in the cases proved below. -/
def sweepFuel (r : RangeSpec) : Nat := (r.end_ - r.start).toNat + 2

/-- The range spec whose loop never terminates: start 0, multiplier 2, so the
current value stays 0 forever while 0 <= end. -/
def divergeSpec : RangeSpec := ⟨0, 10, some 2, none⟩

/-- The loop on divergeSpec never leaves state 0 and never terminates. -/
lemma sweepLoop_divergeSpec : ∀ (fuel : Nat) (acc : List Int),
    sweepLoop divergeSpec fuel 0 acc = .diverge := by
  intro fuel
  induction fuel with
  | zero => intro acc; rfl
  | succ n ih =>
    intro acc
    have h : sweepLoop divergeSpec (n + 1) 0 acc
        = sweepLoop divergeSpec n (0 * (2 : Int)) (acc ++ [0]) := by
      simp [sweepLoop, divergeSpec, truthy]
    rw [h]
    rw [show (0 : Int) * 2 = 0 by ring]
    exact ih _

/-- One unfolding of the loop at positive fuel. -/
lemma sweepLoop_succ (r : RangeSpec) (n : Nat) (current : Int) (acc : List Int) :
    sweepLoop r (n + 1) current acc =
      if current ≤ r.end_ then
        if truthy r.multiplier then
          sweepLoop r n (current * r.multiplier.getD 0) (acc ++ [current])
        else if truthy r.increase_by then
          sweepLoop r n (current + r.increase_by.getD 0) (acc ++ [current])
        else .err
      else .ok acc := rfl

/-- With a multiplier greater than 1 and a positive counter, the loop
terminates within the stated fuel and produces a strictly increasing list of
values bounded by the end value. -/
lemma sweepLoop_ok_mult (r : RangeSpec) (m : Int) (hm : r.multiplier = some m)
    (h1 : 1 < m) :
    ∀ (fuel : Nat) (current : Int) (acc : List Int), 1 ≤ current →
      (r.end_ - current).toNat + 2 ≤ fuel →
      ∃ vs, sweepLoop r fuel current acc = .ok (acc ++ vs) ∧
        vs.Chain' (· < ·) ∧ ∀ v ∈ vs, current ≤ v ∧ v ≤ r.end_ := by
  intro fuel
  induction fuel with
  | zero => intro current acc _ hf; omega
  | succ n ih =>
    intro current acc hc hf
    by_cases hle : current ≤ r.end_
    · have htr : truthy r.multiplier = true := by
        simp only [hm, truthy, ne_eq, bne_iff_ne]
        omega
      have hget : r.multiplier.getD 0 = m := by rw [hm]; rfl
      have hstep : current + 1 ≤ current * m := by nlinarith
      rw [sweepLoop_succ, if_pos hle, if_pos htr, hget]
      by_cases hle' : current * m ≤ r.end_
      · have hf' : (r.end_ - current * m).toNat + 2 ≤ n := by omega
        obtain ⟨vs', heq, hch, hall⟩ :=
          ih (current * m) (acc ++ [current]) (by nlinarith) hf'
        refine ⟨current :: vs', ?_, ?_, ?_⟩
        · rw [heq]; simp
        · rw [List.chain'_cons']
          refine ⟨fun y hy => ?_, hch⟩
          have := hall y (List.mem_of_mem_head? hy)
          omega
        · intro v hv
          rcases List.mem_cons.mp hv with rfl | hv
          · exact ⟨le_refl _, hle⟩
          · have := hall v hv; exact ⟨by omega, this.2⟩
      · obtain ⟨k, rfl⟩ : ∃ k, n = k + 1 := ⟨n - 1, by omega⟩
        refine ⟨[current], ?_, ?_, ?_⟩
        · rw [sweepLoop_succ, if_neg hle']
        · simp
        · intro v hv
          rw [List.mem_singleton] at hv
          subst hv
          exact ⟨le_refl _, hle⟩
    · refine ⟨[], ?_, ?_, ?_⟩
      · rw [sweepLoop_succ, if_neg hle]; simp
      · simp
      · simp

/-- With the multiplier falsy and a positive increase_by, the loop terminates
within the stated fuel and produces a strictly increasing bounded list. -/
lemma sweepLoop_ok_incr (r : RangeSpec) (d : Int) (hmf : truthy r.multiplier = false)
    (hd : r.increase_by = some d) (h1 : 1 ≤ d) :
    ∀ (fuel : Nat) (current : Int) (acc : List Int),
      (r.end_ - current).toNat + 2 ≤ fuel →
      ∃ vs, sweepLoop r fuel current acc = .ok (acc ++ vs) ∧
        vs.Chain' (· < ·) ∧ ∀ v ∈ vs, current ≤ v ∧ v ≤ r.end_ := by
  intro fuel
  induction fuel with
  | zero => intro current acc hf; omega
  | succ n ih =>
    intro current acc hf
    by_cases hle : current ≤ r.end_
    · have htr : truthy r.increase_by = true := by
        simp only [hd, truthy, ne_eq, bne_iff_ne]
        omega
      have hget : r.increase_by.getD 0 = d := by rw [hd]; rfl
      have hstep : current + 1 ≤ current + d := by omega
      rw [sweepLoop_succ, if_pos hle, if_neg (by simp [hmf]), if_pos htr, hget]
      by_cases hle' : current + d ≤ r.end_
      · have hf' : (r.end_ - (current + d)).toNat + 2 ≤ n := by omega
        obtain ⟨vs', heq, hch, hall⟩ := ih (current + d) (acc ++ [current]) hf'
        refine ⟨current :: vs', ?_, ?_, ?_⟩
        · rw [heq]; simp
        · rw [List.chain'_cons']
          refine ⟨fun y hy => ?_, hch⟩
          have := hall y (List.mem_of_mem_head? hy)
          omega
        · intro v hv
          rcases List.mem_cons.mp hv with rfl | hv
          · exact ⟨le_refl _, hle⟩
          · have := hall v hv; exact ⟨by omega, this.2⟩
      · obtain ⟨k, rfl⟩ : ∃ k, n = k + 1 := ⟨n - 1, by omega⟩
        refine ⟨[current], ?_, ?_, ?_⟩
        · rw [sweepLoop_succ, if_neg hle']
        · simp
        · intro v hv
          rw [List.mem_singleton] at hv
          subst hv
          exact ⟨le_refl _, hle⟩
    · refine ⟨[], ?_, ?_, ?_⟩
      · rw [sweepLoop_succ, if_neg hle]; simp
      · simp
      · simp

/-- The loop never terminates on the given range spec, whatever the fuel. -/
def sweepDiverges (r : RangeSpec) : Prop :=
  ∀ fuel, sweepValues fuel r = .diverge

/-- C2 counterexample: the claim quantifies over every range spec with
multiplier greater than 1 and over every range spec with increase_by greater
than 0.  First, with start 0, end 10, multiplier 2 the loop never terminates
(0 * 2 = 0 stays at 0 <= 10 forever).  Second, with start 1, end 10,
increase_by 3 but a coexisting truthy multiplier -5, the "if multiplier"
branch wins, the loop terminates with values 1, -5, which are not strictly
increasing.  Both halves of the claim are therefore false as stated. -/
theorem sweepValues_counterexample_C2 :
    sweepDiverges divergeSpec ∧
    sweepValues 100 ⟨1, 10, some (-5), some 3⟩ = .ok [1, -5] := by
  constructor
  · intro fuel
    exact sweepLoop_divergeSpec fuel []
  · decide

/-- C2 (amended): for a range spec with multiplier greater than 1 and start
at least 1, or with a falsy multiplier and increase_by at least 1, the
value-generation loop terminates within fuel (end - start).toNat + 2 and its
output is finite, strictly increasing, and bounded by the end value. -/
theorem sweepValues_terminates_strictly_increasing (r : RangeSpec)
    (h : (1 < r.multiplier.getD 0 ∧ 1 ≤ r.start) ∨
         (truthy r.multiplier = false ∧ 1 ≤ r.increase_by.getD 0)) :
    sweepOk (sweepValues (sweepFuel r) r) = true ∧
    (sweepList (sweepValues (sweepFuel r) r)).Chain' (· < ·) ∧
    (sweepList (sweepValues (sweepFuel r) r)).all (fun v => decide (v ≤ r.end_)) = true := by
  have key : ∃ vs, sweepValues (sweepFuel r) r = .ok vs ∧
      vs.Chain' (· < ·) ∧ ∀ v ∈ vs, v ≤ r.end_ := by
    rcases h with ⟨hm', hs⟩ | ⟨hmf, hd'⟩
    · rcases hmo : r.multiplier with _ | m
      · rw [hmo] at hm'; simp at hm'
      · rw [hmo] at hm'; simp at hm'
        obtain ⟨vs, heq, hch, hall⟩ :=
          sweepLoop_ok_mult r m hmo hm' (sweepFuel r) r.start [] hs (le_refl _)
        exact ⟨vs, by simpa [sweepValues] using heq, hch, fun v hv => (hall v hv).2⟩
    · rcases hio : r.increase_by with _ | d
      · rw [hio] at hd'; simp at hd'
      · rw [hio] at hd'; simp at hd'
        obtain ⟨vs, heq, hch, hall⟩ :=
          sweepLoop_ok_incr r d hmf hio hd' (sweepFuel r) r.start [] (le_refl _)
        exact ⟨vs, by simpa [sweepValues] using heq, hch, fun v hv => (hall v hv).2⟩
  obtain ⟨vs, heq, hch, hall⟩ := key
  rw [heq]
  refine ⟨rfl, hch, ?_⟩
  rw [List.all_eq_true]
  intro v hv
  exact decide_eq_true (hall v hv)

/-- The range spec of the C2 witness: start 1, end 10, multiplier 2. -/
def multSpec : RangeSpec := ⟨1, 10, some 2, none⟩

/-- Witness for the amended C2 theorem at the concrete spec multSpec. -/
theorem sweepValues_terminates_strictly_increasing_witness :
    ((1 < multSpec.multiplier.getD 0 ∧ 1 ≤ multSpec.start) ∨
     (truthy multSpec.multiplier = false ∧ 1 ≤ multSpec.increase_by.getD 0)) ∧
    (sweepOk (sweepValues (sweepFuel multSpec) multSpec) = true ∧
     (sweepList (sweepValues (sweepFuel multSpec) multSpec)).Chain' (· < ·) ∧
     (sweepList (sweepValues (sweepFuel multSpec) multSpec)).all
        (fun v => decide (v ≤ multSpec.end_)) = true) :=
  ⟨Or.inl (by decide),
   sweepValues_terminates_strictly_increasing multSpec (Or.inl (by decide))⟩

/-- When a truthy stepping mode exists the loop can exit normally or run out
of fuel, but it never raises the ValueError. -/
lemma sweepLoop_ne_err (r : RangeSpec)
    (htr : truthy r.multiplier = true ∨ truthy r.increase_by = true) :
    ∀ (fuel : Nat) (current : Int) (acc : List Int),
      sweepLoop r fuel current acc ≠ .err := by
  intro fuel
  induction fuel with
  | zero => intro c a h; exact SweepResult.noConfusion h
  | succ n ih =>
    intro c a h
    rw [sweepLoop_succ] at h
    by_cases hle : c ≤ r.end_
    · rw [if_pos hle] at h
      rcases htr with h1 | h2
      · rw [if_pos h1] at h
        exact ih _ _ h
      · by_cases h1 : truthy r.multiplier = true
        · rw [if_pos h1] at h
          exact ih _ _ h
        · rw [if_neg h1, if_pos h2] at h
          exact ih _ _ h
    · rw [if_neg hle] at h
      exact SweepResult.noConfusion h

/-- C3 counterexample: with both stepping modes present (start 1, end 10,
multiplier 2, increase_by 3) expansion succeeds with values 1, 2, 4, 8 and no
configuration error is raised, because the "if multiplier" branch silently
takes precedence.  With neither mode present but start 5 greater than end 1,
the loop body never runs, so no error is raised either: expansion succeeds
with an empty value list.  Both error conditions of the claim are false. -/
theorem sweepValues_counterexample_C3 :
    sweepValues 100 ⟨1, 10, some 2, some 3⟩ = .ok [1, 2, 4, 8] ∧
    sweepValues 100 ⟨5, 1, none, none⟩ = .ok [] := by
  exact ⟨by decide, by decide⟩

/-- C3 (amended): the ValueError is raised exactly when neither multiplier
nor increase_by is truthy and additionally start does not exceed end (so the
loop body runs at least once); in every other case, including both stepping
modes present, expansion does not raise the error. -/
theorem sweepValues_err_characterization (r : RangeSpec) (fuel : Nat) (hf : 1 ≤ fuel) :
    sweepValues fuel r = .err ↔
      truthy r.multiplier = false ∧ truthy r.increase_by = false ∧
      r.start ≤ r.end_ := by
  obtain ⟨n, rfl⟩ : ∃ n, fuel = n + 1 := ⟨fuel - 1, by omega⟩
  constructor
  · intro h
    by_cases h1 : truthy r.multiplier = true
    · exact absurd h (sweepLoop_ne_err r (Or.inl h1) _ _ _)
    · by_cases h2 : truthy r.increase_by = true
      · exact absurd h (sweepLoop_ne_err r (Or.inr h2) _ _ _)
      · refine ⟨Bool.not_eq_true _ ▸ h1, Bool.not_eq_true _ ▸ h2, ?_⟩
        by_contra hgt
        unfold sweepValues at h
        rw [sweepLoop_succ, if_neg hgt] at h
        exact SweepResult.noConfusion h
  · rintro ⟨h1, h2, h3⟩
    unfold sweepValues
    rw [sweepLoop_succ, if_pos h3, if_neg (by simp [h1]), if_neg (by simp [h2])]

/-- The range spec of the C3 witness: neither stepping mode present. -/
def errSpec : RangeSpec := ⟨1, 10, none, none⟩

/-- Witness for the amended C3 theorem at the concrete spec errSpec. -/
theorem sweepValues_err_characterization_witness :
    1 ≤ 1 ∧
    (sweepValues 1 errSpec = .err ↔
      truthy errSpec.multiplier = false ∧ truthy errSpec.increase_by = false ∧
      errSpec.start ≤ errSpec.end_) :=
  ⟨by decide, sweepValues_err_characterization errSpec 1 (by decide)⟩

/-! ## SAME_AS substitution (run_benchmark.py, preprocess_benchmark_param, lines 142-149) -/

/-- The separator string SAME_AS_ as a character list. -/
def sepSAME : List Char := "SAME_AS_".data

/-- Splitting a character list on a non-empty separator, left to right and
non-overlapping, with fuel (the list length is always sufficient fuel):
the model of Python str.split. -/
def splitOnSepGo (sep : List Char) : Nat → List Char → List Char → List (List Char)
  | _, [], cur => [cur.reverse]
  | 0, l, cur => [cur.reverse ++ l]
  | fuel + 1, c :: rest, cur =>
    if sep.isPrefixOf (c :: rest) then
      cur.reverse :: splitOnSepGo sep fuel ((c :: rest).drop sep.length) []
    else
      splitOnSepGo sep fuel rest (c :: cur)

/-- Python value.split("SAME_AS_")[1]: the segment after the first occurrence
of the separator.  For a value that starts with SAME_AS_ the split list has
at least two entries, the first being empty. -/
def sameAsTarget (s : String) : String :=
  String.mk ((splitOnSepGo sepSAME s.data.length s.data []).getD 1 [])

/-- Does a value satisfy isinstance(value, str) and value.startswith("SAME_AS_")? -/
def isSameAsStr : Value → Bool
  | .str s => sepSAME.isPrefixOf s.data
  | _ => false

/-- Dictionary lookup: benchmark_param[k] (first matching key; keys of a
Python dict are unique). -/
def lookupPS (p : Record) (k : String) : Option Value :=
  (p.find? (fun kv => decide (kv.1 = k))).map Prod.snd

/-- Dictionary assignment benchmark_param[k] = v for a key k that is already
present: the entry keeps its position and takes the new value. -/
def setPS (p : Record) (k : String) (v : Value) : Record :=
  p.map (fun kv => if kv.1 = k then (kv.1, v) else kv)

/-- The substitution loop of preprocess_benchmark_param: iterate over the
items of the dict in insertion order; for each string value starting with
SAME_AS_, look up the referenced key in the current state of the dict
(a missing reference raises ValueError) and assign its current value to the
iterated key.  The first argument is the iteration sequence, which Python
fixes when iteration starts; only values (never keys) are mutated, so the
iterated items are the original items. -/
def resolveAux : List (String × Value) → Record → Except String Record
  | [], p => .ok p
  | (k, v) :: todo, p =>
    match v with
    | .str s =>
      if sepSAME.isPrefixOf s.data then
        match lookupPS p (sameAsTarget s) with
        | none => .error (sameAsTarget s)
        | some w => resolveAux todo (setPS p k w)
      else resolveAux todo p
    | _ => resolveAux todo p

/-- SAME_AS substitution over a whole parameter set. -/
def resolveSameAs (p : Record) : Except String Record :=
  resolveAux p p

/-- The substitution succeeded. -/
def exceptIsOk : Except String Record → Bool
  | .ok _ => true
  | .error _ => false

/-- Decidable form of the hypothesis of the amended C5 theorem for one value:
the reference resolves to a value that is itself not a SAME_AS string. -/
def targetOkB (p : Record) (v : Value) : Bool :=
  match v with
  | .str s =>
    match lookupPS p (sameAsTarget s) with
    | some w => !isSameAsStr w
    | none => false
  | _ => false

/-- The referenced key of a SAME_AS value (only meaningful for string values). -/
def valTarget : Value → String
  | .str s => sameAsTarget s
  | .num _ => ""

/-- In a dict with unique keys each entry is found by looking up its key. -/
lemma lookupPS_self (p : Record) (hnd : (p.map Prod.fst).Nodup) :
    ∀ kv ∈ p, lookupPS p kv.1 = some kv.2 := by
  induction p with
  | nil => intro kv h; exact absurd h (List.not_mem_nil _)
  | cons a l ih =>
    intro kv hkv
    simp only [List.map_cons, List.nodup_cons] at hnd
    rcases List.mem_cons.mp hkv with rfl | hkv
    · unfold lookupPS
      rw [List.find?_cons_of_pos _ (by simp)]
      rfl
    · have hne : ¬(a.1 = kv.1) := by
        intro he
        apply hnd.1
        rw [he]
        exact List.mem_map_of_mem _ hkv
      unfold lookupPS
      rw [List.find?_cons_of_neg _ (by simp [hne])]
      exact ih hnd.2 kv hkv

/-- Assignment does not change the key sequence of the dict. -/
lemma setPS_map_fst (p : Record) (k : String) (v : Value) :
    (setPS p k v).map Prod.fst = p.map Prod.fst := by
  unfold setPS
  rw [List.map_map]
  apply List.map_congr_left
  intro a _
  by_cases h : a.1 = k <;> simp [h]

/-- Assignment to one key does not affect lookups of other keys. -/
lemma lookupPS_setPS_other (p : Record) (k k' : String) (v : Value) (hne : k' ≠ k) :
    lookupPS (setPS p k v) k' = lookupPS p k' := by
  induction p with
  | nil => rfl
  | cons a l ih =>
    by_cases ha : a.1 = k
    · show lookupPS ((if a.1 = k then (a.1, v) else a) :: setPS l k v) k' = _
      rw [if_pos ha]
      have hk' : ¬(a.1 = k') := fun h => hne (by rw [← h]; exact ha)
      unfold lookupPS
      rw [List.find?_cons_of_neg _ (by simp [hk']),
          List.find?_cons_of_neg _ (by simp [hk'])]
      exact ih
    · show lookupPS ((if a.1 = k then (a.1, v) else a) :: setPS l k v) k' = _
      rw [if_neg ha]
      by_cases hk' : a.1 = k'
      · unfold lookupPS
        rw [List.find?_cons_of_pos _ (by simp [hk']),
            List.find?_cons_of_pos _ (by simp [hk'])]
      · unfold lookupPS
        rw [List.find?_cons_of_neg _ (by simp [hk']),
            List.find?_cons_of_neg _ (by simp [hk'])]
        exact ih

/-- Assignment to a present key makes lookup of that key return the new value. -/
lemma lookupPS_setPS_self (p : Record) (k : String) (v w : Value)
    (hw : lookupPS p k = some w) : lookupPS (setPS p k v) k = some v := by
  induction p with
  | nil => exact absurd hw (by simp [lookupPS])
  | cons a l ih =>
    by_cases ha : a.1 = k
    · show lookupPS ((if a.1 = k then (a.1, v) else a) :: setPS l k v) k = some v
      rw [if_pos ha]
      unfold lookupPS
      rw [List.find?_cons_of_pos _ (by simp [ha])]
      rfl
    · show lookupPS ((if a.1 = k then (a.1, v) else a) :: setPS l k v) k = some v
      rw [if_neg ha]
      unfold lookupPS at hw ⊢
      rw [List.find?_cons_of_neg _ (by simp [ha])] at hw
      rw [List.find?_cons_of_neg _ (by simp [ha])]
      exact ih hw

/-- Main invariant argument for the substitution loop: if every pending
SAME_AS entry references a key whose current value is not itself a SAME_AS
string, every SAME_AS value of the dict is still pending, and pending entries
hold their current values, then the loop succeeds and leaves a dict with no
SAME_AS values and the same key sequence. -/
lemma resolveAux_ok (todo : List (String × Value)) :
    ∀ (p : Record),
      (p.map Prod.fst).Nodup →
      (todo.map Prod.fst).Nodup →
      (∀ kv ∈ todo, lookupPS p kv.1 = some kv.2) →
      (∀ kv ∈ p, isSameAsStr kv.2 = true → kv.1 ∈ todo.map Prod.fst) →
      (∀ kv ∈ todo, isSameAsStr kv.2 = true →
        ∃ w, lookupPS p (valTarget kv.2) = some w ∧ isSameAsStr w = false) →
      ∃ q, resolveAux todo p = .ok q ∧
        (∀ kv ∈ q, isSameAsStr kv.2 = false) ∧
        q.map Prod.fst = p.map Prod.fst := by
  induction todo with
  | nil =>
    intro p _ _ _ I3 _
    refine ⟨p, rfl, ?_, rfl⟩
    intro kv hkv
    cases h : isSameAsStr kv.2 with
    | false => rfl
    | true => exact absurd (I3 kv hkv h) (List.not_mem_nil _)
  | cons a todo ih =>
    intro p hp hnd I2 I3 I4
    obtain ⟨k, v⟩ := a
    simp only [List.map_cons, List.nodup_cons] at hnd
    have hlk : lookupPS p k = some v := I2 (k, v) (List.mem_cons_self _ _)
    cases v with
    | num qv =>
      have I3' : ∀ kv ∈ p, isSameAsStr kv.2 = true → kv.1 ∈ todo.map Prod.fst := by
        intro kv hkv hS
        have hmem := I3 kv hkv hS
        rcases List.mem_cons.mp hmem with he | he
        · exfalso
          have := lookupPS_self p hp kv hkv
          rw [he, hlk] at this
          have hv2 : kv.2 = Value.num qv := by
            exact Option.some.inj this.symm
          rw [hv2] at hS
          exact absurd hS (by simp [isSameAsStr])
        · exact he
      show ∃ q, resolveAux todo p = .ok q ∧ _ ∧ _
      exact ih p hp hnd.2 (fun kv hkv => I2 kv (List.mem_cons_of_mem _ hkv)) I3'
        (fun kv hkv => I4 kv (List.mem_cons_of_mem _ hkv))
    | str s =>
      by_cases hpre : sepSAME.isPrefixOf s.data = true
      · obtain ⟨w, hw, hwn⟩ :=
          I4 (k, .str s) (List.mem_cons_self _ _) (by simpa [isSameAsStr] using hpre)
        have hstep : resolveAux ((k, Value.str s) :: todo) p
            = resolveAux todo (setPS p k w) := by
          simp only [resolveAux, hpre, if_true]
          rw [show lookupPS p (sameAsTarget s) = some w from hw]
        rw [hstep]
        have hp' : ((setPS p k w).map Prod.fst).Nodup := by
          rw [setPS_map_fst]; exact hp
        have I2' : ∀ kv ∈ todo, lookupPS (setPS p k w) kv.1 = some kv.2 := by
          intro kv hkv
          have hne : kv.1 ≠ k := by
            intro he
            exact hnd.1 (he ▸ List.mem_map_of_mem _ hkv)
          rw [lookupPS_setPS_other p k kv.1 w hne]
          exact I2 kv (List.mem_cons_of_mem _ hkv)
        have I3' : ∀ kv ∈ setPS p k w, isSameAsStr kv.2 = true →
            kv.1 ∈ todo.map Prod.fst := by
          intro kv hkv hS
          obtain ⟨kv0, hkv0, hkveq⟩ := List.mem_map.mp hkv
          by_cases h0 : kv0.1 = k
          · rw [if_pos h0] at hkveq
            rw [← hkveq] at hS
            exact absurd hS (by simp [hwn])
          · rw [if_neg h0] at hkveq
            subst hkveq
            have hmem := I3 kv0 hkv0 hS
            rcases List.mem_cons.mp hmem with he | he
            · exact absurd he h0
            · exact he
        have I4' : ∀ kv ∈ todo, isSameAsStr kv.2 = true →
            ∃ w', lookupPS (setPS p k w) (valTarget kv.2) = some w' ∧
              isSameAsStr w' = false := by
          intro kv hkv hS
          obtain ⟨w', hw', hwn'⟩ := I4 kv (List.mem_cons_of_mem _ hkv) hS
          by_cases htk : valTarget kv.2 = k
          · refine ⟨w, ?_, hwn⟩
            rw [htk]
            exact lookupPS_setPS_self p k w (Value.str s) hlk
          · refine ⟨w', ?_, hwn'⟩
            rw [lookupPS_setPS_other p k _ w htk]
            exact hw'
        obtain ⟨q, heq, hall, hkeys⟩ := ih (setPS p k w) hp' hnd.2 I2' I3' I4'
        refine ⟨q, heq, hall, ?_⟩
        rw [hkeys, setPS_map_fst]
      · have hstep : resolveAux ((k, Value.str s) :: todo) p = resolveAux todo p := by
          simp only [resolveAux, hpre]
          simp
        rw [hstep]
        have I3' : ∀ kv ∈ p, isSameAsStr kv.2 = true → kv.1 ∈ todo.map Prod.fst := by
          intro kv hkv hS
          rcases List.mem_cons.mp (I3 kv hkv hS) with he | he
          · exfalso
            have := lookupPS_self p hp kv hkv
            rw [he, hlk] at this
            have hv2 : kv.2 = Value.str s := Option.some.inj this.symm
            rw [hv2] at hS
            simp only [isSameAsStr] at hS
            rw [hS] at hpre
            exact hpre rfl
          · exact he
        exact ih p hp hnd.2 (fun kv hkv => I2 kv (List.mem_cons_of_mem _ hkv)) I3'
          (fun kv hkv => I4 kv (List.mem_cons_of_mem _ hkv))

/-- The substitution loop leaves a dict without SAME_AS values unchanged. -/
lemma resolveAux_noop (todo : List (String × Value)) (p : Record)
    (h : ∀ kv ∈ todo, isSameAsStr kv.2 = false) :
    resolveAux todo p = .ok p := by
  induction todo with
  | nil => rfl
  | cons a todo ih =>
    obtain ⟨k, v⟩ := a
    have hv := h (k, v) (List.mem_cons_self _ _)
    cases v with
    | num qv =>
      show resolveAux todo p = .ok p
      exact ih (fun kv hkv => h kv (List.mem_cons_of_mem _ hkv))
    | str s =>
      have hpre : sepSAME.isPrefixOf s.data = false := by
        simpa [isSameAsStr] using hv
      have hstep : resolveAux ((k, Value.str s) :: todo) p = resolveAux todo p := by
        simp only [resolveAux, hpre]
        simp
      rw [hstep]
      exact ih (fun kv hkv => h kv (List.mem_cons_of_mem _ hkv))

/-- A parameter set with a chain of SAME_AS references: a refers to b, whose
own value is the SAME_AS string referring to c. -/
def chainParam : Record :=
  [("a", .str "SAME_AS_b"), ("b", .str "SAME_AS_c"), ("c", .num 5)]

/-- C5 counterexample: one substitution pass over chainParam copies the
current (still unresolved) value of b into a, yielding a = SAME_AS_c, while a
second pass then resolves a to 5.  Applying the substitution twice therefore
differs from applying it once, so the substitution is not idempotent as
claimed. -/
theorem resolveSameAs_counterexample_C5 :
    resolveSameAs chainParam =
      .ok [("a", .str "SAME_AS_c"), ("b", .num 5), ("c", .num 5)] ∧
    (resolveSameAs chainParam).bind resolveSameAs =
      .ok [("a", .num 5), ("b", .num 5), ("c", .num 5)] ∧
    (resolveSameAs chainParam).bind resolveSameAs ≠ resolveSameAs chainParam := by
  have h1 : resolveSameAs chainParam =
      .ok [("a", .str "SAME_AS_c"), ("b", .num 5), ("c", .num 5)] := by rfl
  have h2 : (resolveSameAs chainParam).bind resolveSameAs =
      .ok [("a", .num 5), ("b", .num 5), ("c", .num 5)] := by rfl
  refine ⟨h1, h2, ?_⟩
  rw [h2, h1]
  intro h
  have hlists := Except.ok.inj h
  simp at hlists

/-- C5 (amended): on a parameter set with unique keys in which every SAME_AS
value references a key whose own value is not a SAME_AS string, substitution
succeeds and applying it twice yields the same result as applying it once;
in particular a set containing no SAME_AS string is left unchanged.  (Chained
references, as in the counterexample, escape this hypothesis and are only
partially resolved by one pass.) -/
theorem resolveSameAs_idempotent (p : Record)
    (hnd : (p.map Prod.fst).Nodup)
    (hok : p.all (fun kv => !isSameAsStr kv.2 || targetOkB p kv.2) = true) :
    exceptIsOk (resolveSameAs p) = true ∧
    (resolveSameAs p).bind resolveSameAs = resolveSameAs p := by
  have I2 := lookupPS_self p hnd
  have I4 : ∀ kv ∈ p, isSameAsStr kv.2 = true →
      ∃ w, lookupPS p (valTarget kv.2) = some w ∧ isSameAsStr w = false := by
    intro kv hkv hS
    have h1 := (List.all_eq_true.mp hok) kv hkv
    rw [hS] at h1
    simp only [Bool.not_true, Bool.false_or] at h1
    rcases kv with ⟨k2, v2⟩
    cases v2 with
    | num qv => exact absurd hS (by simp [isSameAsStr])
    | str s =>
      simp only [targetOkB] at h1
      cases hlw : lookupPS p (sameAsTarget s) with
      | none => rw [hlw] at h1; exact absurd h1 (by simp)
      | some w =>
        rw [hlw] at h1
        refine ⟨w, hlw, ?_⟩
        simpa using h1
  obtain ⟨q, heq, hall, _⟩ := resolveAux_ok p p hnd hnd I2
    (fun kv hkv _ => List.mem_map_of_mem Prod.fst hkv) I4
  have heq' : resolveSameAs p = .ok q := heq
  rw [heq']
  refine ⟨rfl, ?_⟩
  show resolveSameAs q = Except.ok q
  exact resolveAux_noop q q hall

/-- A parameter set with a single directly resolvable SAME_AS reference. -/
def simpleParam : Record := [("x", .str "SAME_AS_y"), ("y", .num 1)]

/-- Witness for the amended C5 theorem at the concrete set simpleParam. -/
theorem resolveSameAs_idempotent_witness :
    (simpleParam.map Prod.fst).Nodup ∧
    simpleParam.all (fun kv => !isSameAsStr kv.2 || targetOkB simpleParam kv.2) = true ∧
    (exceptIsOk (resolveSameAs simpleParam) = true ∧
     (resolveSameAs simpleParam).bind resolveSameAs = resolveSameAs simpleParam) :=
  ⟨by decide, by decide, resolveSameAs_idempotent simpleParam (by decide) (by decide)⟩

/-! ## Argument filtering before computeMetrics
(run_benchmark.py, run_single_benchmark, lines 246-260) -/

/-- The hardcoded blocklist benchmark_params_to_filter of the dispatcher. -/
def benchmark_params_to_filter : List String := ["num_runs", "trace_dir"]

/-- filtered_benchmark_results: raw-result entries whose keys appear among
the accepted parameter names of calculate_metrics_func. -/
def filtered_benchmark_results (accepted : List String) (results : Record) : Record :=
  results.filter (fun kv => decide (kv.1 ∈ accepted))

/-- filtered_benchmark_param: parameter entries minus the blocklist; the
accepted parameter names play no role here. -/
def filtered_benchmark_param (params : Record) : Record :=
  params.filter (fun kv => decide (kv.1 ∉ benchmark_params_to_filter))

/-- The keyword-argument map passed to calculate_metrics_func, in Python
order: **filtered_benchmark_param then **filtered_benchmark_results. -/
def computeMetricsArgs (accepted : List String) (params results : Record) : Record :=
  filtered_benchmark_param params ++ filtered_benchmark_results accepted results

/-- Following the words of the spec and claim C4: every entry of the merged
set (preprocessed parameters together with raw-result fields) whose name is
an accepted parameter name of computeMetrics, and no other entry. -/
def spec_computeMetricsArgs (accepted : List String) (params results : Record) : Record :=
  (params ++ results).filter (fun kv => decide (kv.1 ∈ accepted))

/-- C4 counterexample: a preprocessed parameter named foo that is not an
accepted parameter name of computeMetrics is still passed, because the
dispatcher filters parameters only against the num_runs/trace_dir blocklist;
so the argument map differs from the claimed signature-filtered merge. -/
theorem computeMetricsArgs_counterexample_C4 :
    computeMetricsArgs ["a"] [("foo", .num 1), ("a", .num 2)] [("b", .num 3)]
      = [("foo", .num 1), ("a", .num 2)] ∧
    spec_computeMetricsArgs ["a"] [("foo", .num 1), ("a", .num 2)] [("b", .num 3)]
      = [("a", .num 2)] ∧
    computeMetricsArgs ["a"] [("foo", .num 1), ("a", .num 2)] [("b", .num 3)]
      ≠ spec_computeMetricsArgs ["a"] [("foo", .num 1), ("a", .num 2)] [("b", .num 3)] := by
  refine ⟨by decide, by decide, by decide⟩

/-- C4 (amended): the argument map passed to computeMetrics consists of the
preprocessed parameters with num_runs and trace_dir removed regardless of the
accepted names, together with exactly those raw-result fields whose names are
accepted parameter names of computeMetrics. -/
theorem computeMetricsArgs_membership (accepted : List String)
    (params results : Record) (kv : String × Value) :
    kv ∈ computeMetricsArgs accepted params results ↔
      (kv ∈ params ∧ kv.1 ∉ benchmark_params_to_filter) ∨
      (kv ∈ results ∧ kv.1 ∈ accepted) := by
  unfold computeMetricsArgs filtered_benchmark_param filtered_benchmark_results
  rw [List.mem_append, List.mem_filter, List.mem_filter]
  simp

/-! ## Report generation (report_generator.py) -/

/-- The fixed tracked-metric list METRICS_TO_REPORT (lines 14-20). -/
def METRICS_TO_REPORT : List String :=
  ["ici_bandwidth_gbyte_s_p50",
   "ici_bandwidth_gbyte_s_p90",
   "ici_bandwidth_gbyte_s_p95",
   "ici_bandwidth_gbyte_s_p99",
   "ici_bandwidth_gbyte_s_avg"]

/-- The preferred dimension keys DIM_KEYS of get_dimension_config (line 66). -/
def DIM_KEYS : List String :=
  ["m", "n", "dim", "size", "buffer_size", "dimension"]

/-- Numeric value of a list of decimal digit characters. -/
def digitsVal (cs : List Char) : Nat :=
  cs.foldl (fun n c => n * 10 + (c.toNat - 48)) 0

/-- get_num_chips (lines 22-27): the regex -([0-9]+)$ applied to the TPU type
string, i.e. a non-empty run of trailing digits immediately preceded by a
dash; no match raises ValueError, modelled as none. -/
def get_num_chips (tpu_type : String) : Option Nat :=
  let rev := tpu_type.data.reverse
  let ds := rev.takeWhile Char.isDigit
  match ds, rev.drop ds.length with
  | [], _ => none
  | _ :: _, '-' :: _ => some (digitsVal ds.reverse)
  | _ :: _, _ => none

/-- The keys of one record, in insertion order. -/
def recordKeys (r : Record) : List String := r.map Prod.fst

/-- Accumulator pass of dfColumns: append the keys of each record that have
not been seen yet, in order of first appearance. -/
def dfColumnsGo : List Record → List String → List String
  | [], acc => acc
  | r :: rest, acc =>
    dfColumnsGo rest (acc ++ (recordKeys r).filter (fun k => decide (k ∉ acc)))

/-- The column sequence of pd.DataFrame(list-of-dicts): keys in order of
first appearance across the records. -/
def dfColumns (rs : List Record) : List String := dfColumnsGo rs []

/-- The values present in one column (records missing the key contribute a
NaN, which pandas nunique and numeric-dtype checks ignore or poison; here the
missing entries are simply skipped). -/
def colValues (rs : List Record) (c : String) : List Value :=
  rs.filterMap (fun r => lookupPS r c)

/-- df[c].nunique(): the number of distinct non-missing values of a column. -/
def nunique (rs : List Record) (c : String) : Nat :=
  (colValues rs c).dedup.length

/-- pd.api.types.is_numeric_dtype of a column: every present value numeric. -/
def isNumericCol (rs : List Record) (c : String) : Bool :=
  (colValues rs c).all Value.isNum

/-- The acceptance test of the preferred-key scan of
identify_dimension_column (lines 75-84): the key is a column and either has
more than one distinct value or the frame has exactly one row. -/
def preferredPred (rs : List Record) (k : String) : Bool :=
  decide (k ∈ dfColumns rs) &&
    (decide (1 < nunique rs k) || decide (rs.length = 1))

/-- identify_dimension_column (lines 70-91): an empty frame yields none; else
the first preferred key that passes; else the first column outside
METRICS_TO_REPORT with more than one distinct value; none otherwise.  The
Bool is pandas is_numeric_dtype of the chosen column. -/
def identify_dimension_column (dimKeys : List String) (rs : List Record) :
    Option (String × Bool) :=
  if rs.isEmpty then none
  else
    match dimKeys.find? (preferredPred rs) with
    | some k => some (k, isNumericCol rs k)
    | none =>
      match (dfColumns rs).find?
          (fun c => !(decide (c ∈ METRICS_TO_REPORT)) && decide (1 < nunique rs c)) with
      | some c => some (c, isNumericCol rs c)
      | none => none

/-- Comparison used by df.sort_values on a homogeneous column: numeric by
value, strings lexicographically.  The cross-kind cases (on which pandas
raises for object columns) are fixed arbitrarily but totally: numbers before
strings. -/
def valLeB : Value → Value → Bool
  | .num x, .num y => decide (x ≤ y)
  | .num _, .str _ => true
  | .str _, .num _ => false
  | .str x, .str y => decide (x ≤ y)

/-- Sort key comparison including missing values, which sort_values places
last (na_position defaults to last). -/
def optValLeB : Option Value → Option Value → Bool
  | none, none => true
  | none, some _ => false
  | some _, none => true
  | some a, some b => valLeB a b

/-- Propositional form of the sort-key comparison. -/
def optValLe (a b : Option Value) : Prop := optValLeB a b = true

/-- Record comparison by the values of the dimension column. -/
def recLe (c : String) (r1 r2 : Record) : Prop :=
  optValLe (lookupPS r1 c) (lookupPS r2 c)

instance recLeDecidable (c : String) : DecidableRel (recLe c) := fun _ _ =>
  inferInstanceAs (Decidable (optValLeB _ _ = true))

/-- df.sort_values(by=dim_col): a stable ascending sort of the records by
their dimension value. -/
def sortRecords (rs : List Record) (c : String) : List Record :=
  List.insertionSort (recLe c) rs

/-- The row-label sequence dimensions = df[dim_col].tolist() after sorting. -/
def sortedDimValues (rs : List Record) (c : String) : List (Option Value) :=
  (sortRecords rs c).map (fun r => lookupPS r c)

/-- The cell contents of one per-metric block, one row per record of the
sorted frame (lines 203-206): the dimension cell and the metric cell of each
row index. -/
def pivotCells (rs : List Record) (c m : String) : List (Option Value × Option Value) :=
  (sortRecords rs c).map (fun r => (lookupPS r c, lookupPS r m))

/-- One per-metric block of a sheet: the metric name header, the single
device-count column header (num_chips), and the data rows. -/
structure PivotBlock where
  metric : String
  colHeader : Nat
  rows : List (Option Value × Option Value)
  deriving DecidableEq, Repr

/-- The per-benchmark sheet (lines 166-206): choose the dimension column,
sort once, then lay out one block per tracked metric that occurs among the
columns.  Inference failure skips the sheet. -/
def buildSheet (num_chips : Nat) (rs : List Record) :
    Option (String × List PivotBlock) :=
  match identify_dimension_column DIM_KEYS rs with
  | none => none
  | some (c, _) =>
    some (c, (METRICS_TO_REPORT.filter (fun m => decide (m ∈ dfColumns rs))).map
      (fun m => ⟨m, num_chips, pivotCells rs c m⟩))

/-- generate_excel_report's derivation of the column header: num_chips is
parsed once from the tpu_type argument (line 126) and written as the single
device-count column of every block of every sheet (line 200). -/
def generateSheet (tpu_type : String) (rs : List Record) :
    Option (String × List PivotBlock) :=
  match get_num_chips tpu_type with
  | none => none
  | some n => buildSheet n rs

/-- Following the words of the spec and claim C8: the device-count values
observed in the benchmark's own records, one column per observed value. -/
def spec_observedDeviceCounts (rs : List Record) : List Value :=
  (colValues rs "device_count").dedup

/-- Reading one jsonl file (lines 140-157): the per-line parse results are
consumed in order and appended; the first unparseable line raises inside the
per-file try block, so the records kept from the file are exactly the
parseable prefix before the first failure. -/
def readJsonlFile (lines : List (Option Record)) : List Record :=
  (lines.takeWhile Option.isSome).filterMap id

/-- The sweep range of the C1 scenario: start 128, end 512, multiplier 2. -/
def scenarioSweep : RangeSpec := ⟨128, 512, some 2, none⟩

/-- The three records of the C1 scenario with the tracked average-bandwidth
metric name used by the code. -/
def scenarioRecords : List Record :=
  [[("size", .num 128), ("ici_bandwidth_gbyte_s_avg", .num 10)],
   [("size", .num 256), ("ici_bandwidth_gbyte_s_avg", .num 18)],
   [("size", .num 512), ("ici_bandwidth_gbyte_s_avg", .num 30)]]

/-- The three records of the C1 scenario with the metric name bandwidth_avg
used by the claim. -/
def scenarioRecordsBandwidth : List Record :=
  [[("size", .num 128), ("bandwidth_avg", .num 10)],
   [("size", .num 256), ("bandwidth_avg", .num 18)],
   [("size", .num 512), ("bandwidth_avg", .num 30)]]

/-- C1 counterexample: bandwidth_avg is not one of the tracked metric names
of METRICS_TO_REPORT, so for the claim's three records the sheet is built
with no pivot block at all; no pivot table for bandwidth_avg with rows
128, 256, 512 exists. -/
theorem report_counterexample_C1 :
    "bandwidth_avg" ∉ METRICS_TO_REPORT ∧
    buildSheet 256 scenarioRecordsBandwidth = some ("size", []) := by
  refine ⟨by decide, by decide⟩

/-- C1 (amended): the sweep spec start 128, end 512, multiplier 2 expands to
exactly 128, 256, 512 in that order, and for three records carrying the
tracked metric ici_bandwidth_gbyte_s_avg = 10, 18, 30 at sizes 128, 256, 512,
with the device count 256 parsed from the tpu_type argument v5p-256, the
sheet holds exactly one block for that metric with rows 128, 256, 512 in
that order, the single column header 256, and cell values 10, 18, 30. -/
theorem report_scenario_C1 :
    sweepValues (sweepFuel scenarioSweep) scenarioSweep = .ok [128, 256, 512] ∧
    generateSheet "v5p-256" scenarioRecords =
      some ("size",
        [⟨"ici_bandwidth_gbyte_s_avg", 256,
          [(some (.num 128), some (.num 10)),
           (some (.num 256), some (.num 18)),
           (some (.num 512), some (.num 30))]⟩]) := by
  refine ⟨by decide, by decide⟩

/-- Records in which two rows share the dimension value 1. -/
def dupKeyRecords : List Record :=
  [[("size", .num 1), ("ici_bandwidth_gbyte_s_avg", .num 10)],
   [("size", .num 1), ("ici_bandwidth_gbyte_s_avg", .num 20)],
   [("size", .num 2), ("ici_bandwidth_gbyte_s_avg", .num 30)]]

/-- C7 counterexample: two records share the (dimension, device-count) key
(1, 256), yet the built block holds one row per record: the two cells
addressed by that key hold 10 and 20, and nothing is overwritten, so the
table does not contain exactly one cell for the key holding the
last-processed value. -/
theorem pivot_counterexample_C7 :
    pivotCells dupKeyRecords "size" "ici_bandwidth_gbyte_s_avg" =
      [(some (.num 1), some (.num 10)),
       (some (.num 1), some (.num 20)),
       (some (.num 2), some (.num 30))] ∧
    ((pivotCells dupKeyRecords "size" "ici_bandwidth_gbyte_s_avg").filter
      (fun cell => decide (cell.1 = some (.num 1)))).length = 2 := by
  refine ⟨by decide, by decide⟩

/-- C7 (amended): the rows of a per-metric block are exactly the
(dimension value, metric value) pairs of the records, one row per record in
sorted order; records sharing a key keep separate rows and no value
overwrites another. -/
theorem pivotCells_one_row_per_record (rs : List Record) (c m : String) :
    (pivotCells rs c m).Perm (rs.map (fun r => (lookupPS r c, lookupPS r m))) :=
  List.Perm.map _ (List.perm_insertionSort (recLe c) rs)

/-- Records whose own device_count field is 8 in every row. -/
def devRecords : List Record :=
  [[("size", .num 1), ("device_count", .num 8), ("ici_bandwidth_gbyte_s_avg", .num 10)],
   [("size", .num 2), ("device_count", .num 8), ("ici_bandwidth_gbyte_s_avg", .num 20)]]

/-- C8 counterexample: the records observe only the device count 8, yet the
generated block's column axis is the single value 256 parsed from the
tpu_type argument v5p-256; the column axis is not the observed device-count
set of the benchmark's records. -/
theorem pivot_counterexample_C8 :
    spec_observedDeviceCounts devRecords = [Value.num 8] ∧
    (generateSheet "v5p-256" devRecords).map (fun s => s.2.map PivotBlock.colHeader)
      = some [256] ∧
    Value.num 256 ∉ spec_observedDeviceCounts devRecords := by
  refine ⟨by decide, by decide, by decide⟩

/-- C8 (amended): for every record set alike, the column axis of every
per-metric block is the single device-count value parsed from the tpu_type
string; the records play no part in it. -/
theorem pivot_column_axis_from_tpu_type (tpu_type : String) (n : Nat)
    (rs : List Record) (h : get_num_chips tpu_type = some n) :
    (((generateSheet tpu_type rs).getD ("", [])).2.map PivotBlock.colHeader).all
      (fun k => decide (k = n)) = true := by
  unfold generateSheet
  rw [h]
  unfold buildSheet
  cases identify_dimension_column DIM_KEYS rs with
  | none => rfl
  | some cb =>
    obtain ⟨c, b⟩ := cb
    simp [List.all_eq_true, List.map_map]
    intro x y hy hcol hx
    exact hx.symm

/-- Witness for the amended C8 theorem at tpu_type v5p-256 and devRecords. -/
theorem pivot_column_axis_from_tpu_type_witness :
    get_num_chips "v5p-256" = some 256 ∧
    (((generateSheet "v5p-256" devRecords).getD ("", [])).2.map PivotBlock.colHeader).all
      (fun k => decide (k = 256)) = true :=
  ⟨by decide, pivot_column_axis_from_tpu_type "v5p-256" 256 devRecords (by decide)⟩

/-- The two records of the C9 scenario. -/
def recA : Record := [("size", .num 1)]

/-- The second record of the C9 scenario, behind the unparseable line. -/
def recB : Record := [("size", .num 2)]

/-- C9 counterexample: in a log whose second line fails to parse, the third
(parseable) line is not read: only the record before the failure is kept, so
the failure does abort the remaining records of that log. -/
theorem readJsonl_counterexample_C9 :
    readJsonlFile [some recA, none, some recB] = [recA] ∧
    recB ∉ readJsonlFile [some recA, none, some recB] := by
  refine ⟨by decide, by decide⟩

/-- C9 (amended): an unparseable line makes the per-file exception handler
abandon the rest of that file: the records kept are exactly the parseable
prefix before the first failing line, whatever follows it. -/
theorem readJsonlFile_stops_at_first_failure (pre : List Record)
    (rest : List (Option Record)) :
    readJsonlFile (pre.map some ++ none :: rest) = pre := by
  induction pre with
  | nil => rfl
  | cons r pre ih =>
    show readJsonlFile (some r :: (pre.map some ++ none :: rest)) = r :: pre
    unfold readJsonlFile at ih ⊢
    rw [List.takeWhile_cons_of_pos (by rfl)]
    rw [List.filterMap_cons]
    simp only [id_eq]
    rw [ih]

/-- Membership in the accumulated column sequence. -/
lemma dfColumnsGo_mem (rs : List Record) : ∀ (acc : List String) (k : String),
    k ∈ dfColumnsGo rs acc ↔ k ∈ acc ∨ ∃ r ∈ rs, k ∈ recordKeys r := by
  induction rs with
  | nil => intro acc k; simp [dfColumnsGo]
  | cons r rest ih =>
    intro acc k
    show k ∈ dfColumnsGo rest (acc ++ (recordKeys r).filter (fun k => decide (k ∉ acc)))
      ↔ _
    rw [ih]
    simp only [List.mem_append, List.mem_filter, decide_eq_true_eq, List.mem_cons]
    constructor
    · rintro (((hk | ⟨hk, _⟩) | ⟨r', hr', hk⟩))
      · exact Or.inl hk
      · exact Or.inr ⟨r, Or.inl rfl, hk⟩
      · exact Or.inr ⟨r', Or.inr hr', hk⟩
    · by_cases hacc : k ∈ acc
      · intro _; exact Or.inl (Or.inl hacc)
      · rintro (hk | ⟨r', hr' | hr', hk⟩)
        · exact absurd hk hacc
        · subst hr'; exact Or.inl (Or.inr ⟨hk, hacc⟩)
        · exact Or.inr ⟨r', hr', hk⟩

/-- A key is a column exactly when some record carries it. -/
lemma dfColumns_mem (rs : List Record) (k : String) :
    k ∈ dfColumns rs ↔ ∃ r ∈ rs, k ∈ recordKeys r := by
  rw [dfColumns, dfColumnsGo_mem]
  simp

/-- Column contents of permuted record sets are permutations. -/
lemma colValues_perm {rs rs' : List Record} (h : rs.Perm rs') (c : String) :
    (colValues rs c).Perm (colValues rs' c) :=
  h.filterMap _

/-- The distinct-value count of a column ignores record order. -/
lemma nunique_perm {rs rs' : List Record} (h : rs.Perm rs') (c : String) :
    nunique rs c = nunique rs' c :=
  ((colValues_perm h c).dedup).length_eq

/-- List.all agrees on permutations. -/
lemma perm_all_eq {α : Type} {l l' : List α} (h : l.Perm l') (p : α → Bool) :
    l.all p = l'.all p := by
  apply Bool.eq_iff_iff.mpr
  rw [List.all_eq_true, List.all_eq_true]
  exact ⟨fun ha x hx => ha x (h.mem_iff.mpr hx), fun ha x hx => ha x (h.mem_iff.mp hx)⟩

/-- The numeric-dtype test of a column ignores record order. -/
lemma isNumericCol_perm {rs rs' : List Record} (h : rs.Perm rs') (c : String) :
    isNumericCol rs c = isNumericCol rs' c :=
  perm_all_eq (colValues_perm h c) _

/-- isEmpty agrees on permutations. -/
lemma perm_isEmpty_eq {α : Type} {l l' : List α} (h : l.Perm l') :
    l.isEmpty = l'.isEmpty := by
  cases l with
  | nil => rw [h.nil_eq]
  | cons a t =>
    cases l' with
    | nil => simpa using h.eq_nil
    | cons b t' => rfl

/-- The preferred-key acceptance test ignores record order. -/
lemma preferredPred_perm {rs rs' : List Record} (h : rs.Perm rs') :
    preferredPred rs = preferredPred rs' := by
  funext k
  unfold preferredPred
  congr 1
  · apply decide_eq_decide.mpr
    rw [dfColumns_mem, dfColumns_mem]
    exact ⟨fun ⟨r, hr, hk⟩ => ⟨r, h.mem_iff.mp hr, hk⟩,
           fun ⟨r, hr, hk⟩ => ⟨r, h.mem_iff.mpr hr, hk⟩⟩
  · congr 1
    · exact decide_eq_decide.mpr (by rw [nunique_perm h])
    · exact decide_eq_decide.mpr (by rw [h.length_eq])

/-- When a preferred key is accepted, dimension inference gives the same
answer on any permutation of the records. -/
lemma identify_perm_preferred (rs rs' : List Record) (h : rs.Perm rs')
    (hpref : (DIM_KEYS.find? (preferredPred rs)).isSome = true) :
    identify_dimension_column DIM_KEYS rs = identify_dimension_column DIM_KEYS rs' := by
  obtain ⟨k, hk⟩ := Option.isSome_iff_exists.mp hpref
  have hk' : DIM_KEYS.find? (preferredPred rs') = some k := by
    rw [← preferredPred_perm h]; exact hk
  unfold identify_dimension_column
  rw [hk, hk', perm_isEmpty_eq h]
  simp only [isNumericCol_perm h]

/-- Transitivity of the value comparison. -/
lemma valLeB_trans (a b c : Value) (h1 : valLeB a b = true) (h2 : valLeB b c = true) :
    valLeB a c = true := by
  cases a <;> cases b <;> cases c <;>
    simp only [valLeB, decide_eq_true_eq] at h1 h2 ⊢ <;>
    first
    | trivial
    | exact le_trans h1 h2

/-- Totality of the value comparison. -/
lemma valLeB_total (a b : Value) : valLeB a b = true ∨ valLeB b a = true := by
  cases a <;> cases b <;>
    simp only [valLeB, decide_eq_true_eq] <;>
    first
    | exact Or.inl trivial
    | exact Or.inr trivial
    | exact le_total _ _

/-- Antisymmetry of the value comparison. -/
lemma valLeB_antisymm (a b : Value) (h1 : valLeB a b = true) (h2 : valLeB b a = true) :
    a = b := by
  cases a <;> cases b <;>
    simp only [valLeB, decide_eq_true_eq] at h1 h2 <;>
    first
    | trivial
    | simp [le_antisymm h1 h2]

/-- Transitivity of the sort-key comparison. -/
lemma optValLe_trans (a b c : Option Value) (h1 : optValLe a b) (h2 : optValLe b c) :
    optValLe a c := by
  cases a <;> cases b <;> cases c <;>
    simp only [optValLe, optValLeB] at h1 h2 ⊢ <;>
    first
    | trivial
    | exact valLeB_trans _ _ _ h1 h2

/-- Totality of the sort-key comparison. -/
lemma optValLe_total (a b : Option Value) : optValLe a b ∨ optValLe b a := by
  cases a <;> cases b <;>
    simp only [optValLe, optValLeB] <;>
    first
    | exact Or.inl trivial
    | exact Or.inr trivial
    | exact valLeB_total _ _

/-- Antisymmetry of the sort-key comparison. -/
lemma optValLe_antisymm (a b : Option Value) (h1 : optValLe a b) (h2 : optValLe b a) :
    a = b := by
  cases a <;> cases b <;>
    simp only [optValLe, optValLeB] at h1 h2 <;>
    first
    | trivial
    | simp [valLeB_antisymm _ _ h1 h2]

instance : IsTrans (Option Value) optValLe := ⟨optValLe_trans⟩

instance : IsTotal (Option Value) optValLe := ⟨optValLe_total⟩

instance : IsAntisymm (Option Value) optValLe := ⟨optValLe_antisymm⟩

instance (c : String) : IsTrans Record (recLe c) :=
  ⟨fun _ _ _ => optValLe_trans _ _ _⟩

instance (c : String) : IsTotal Record (recLe c) :=
  ⟨fun _ _ => optValLe_total _ _⟩

/-- The sorted row-label sequence ignores record order: any two permuted
record sets sort to the same dimension-value sequence. -/
lemma sortedDimValues_perm (rs rs' : List Record) (h : rs.Perm rs') (c : String) :
    sortedDimValues rs c = sortedDimValues rs' c := by
  apply List.eq_of_perm_of_sorted (r := optValLe)
  · exact ((List.perm_insertionSort _ rs).map _).trans
      ((h.map _).trans ((List.perm_insertionSort _ rs').map _).symm)
  · exact List.Pairwise.map _ (fun _ _ hab => hab)
      (List.sorted_insertionSort (recLe c) rs)
  · exact List.Pairwise.map _ (fun _ _ hab => hab)
      (List.sorted_insertionSort (recLe c) rs')

/-- The two-record sets of the C6 counterexample: the same records in the two
possible orders; no preferred dimension key occurs, both remaining columns
vary, and the first-seen column order differs. -/
def permRecordsA : List Record :=
  [[("p", .num 1), ("q", .num 10)], [("q", .num 20), ("p", .num 2)]]

/-- The records of permRecordsA in the opposite order. -/
def permRecordsB : List Record :=
  [[("q", .num 20), ("p", .num 2)], [("p", .num 1), ("q", .num 10)]]

/-- C6 counterexample: permuting the two records changes the inferred
dimension column from p to q, because the fallback scan follows the column
order of the frame, which follows record insertion order; dimension inference
is therefore not order-independent. -/
theorem identify_counterexample_C6 :
    permRecordsB.Perm permRecordsA ∧
    identify_dimension_column DIM_KEYS permRecordsA = some ("p", true) ∧
    identify_dimension_column DIM_KEYS permRecordsB = some ("q", true) ∧
    identify_dimension_column DIM_KEYS permRecordsA ≠
      identify_dimension_column DIM_KEYS permRecordsB := by
  refine ⟨List.Perm.swap _ _ _, by decide, by decide, by decide⟩

/-- C6 (amended): whenever inference succeeds through the preferred-key scan
(the find? over DIM_KEYS accepts a key), both the chosen column with its
numeric flag and the sorted dimension-value sequence are independent of
record order; only the fallback scan over the remaining columns is
order-sensitive. -/
theorem identify_perm_invariant (rs rs' : List Record) (hperm : rs.Perm rs')
    (hpref : (DIM_KEYS.find? (preferredPred rs)).isSome = true) :
    identify_dimension_column DIM_KEYS rs = identify_dimension_column DIM_KEYS rs' ∧
    (identify_dimension_column DIM_KEYS rs).map (fun cb => sortedDimValues rs cb.1)
      = (identify_dimension_column DIM_KEYS rs').map (fun cb => sortedDimValues rs' cb.1) := by
  have hid := identify_perm_preferred rs rs' hperm hpref
  refine ⟨hid, ?_⟩
  rw [← hid]
  cases hcb : identify_dimension_column DIM_KEYS rs with
  | none => rfl
  | some cb =>
    rw [Option.map_some', Option.map_some', sortedDimValues_perm rs rs' hperm cb.1]

/-- Two single-key records for the C6 witness, first order. -/
def sizeRecordsA : List Record := [[("size", .num 1)], [("size", .num 2)]]

/-- Two single-key records for the C6 witness, opposite order. -/
def sizeRecordsB : List Record := [[("size", .num 2)], [("size", .num 1)]]

/-- Witness for the amended C6 theorem on a concrete permuted pair. -/
theorem identify_perm_invariant_witness :
    sizeRecordsA.Perm sizeRecordsB ∧
    (DIM_KEYS.find? (preferredPred sizeRecordsA)).isSome = true ∧
    (identify_dimension_column DIM_KEYS sizeRecordsA
        = identify_dimension_column DIM_KEYS sizeRecordsB ∧
     (identify_dimension_column DIM_KEYS sizeRecordsA).map
        (fun cb => sortedDimValues sizeRecordsA cb.1)
       = (identify_dimension_column DIM_KEYS sizeRecordsB).map
          (fun cb => sortedDimValues sizeRecordsB cb.1)) :=
  ⟨List.Perm.swap _ _ _, by decide,
   identify_perm_invariant sizeRecordsA sizeRecordsB (List.Perm.swap _ _ _) (by decide)⟩

/-! ## Sweep parameter naming (run_benchmark.py, lines 160-193) -/

/-- Python key[:-6] applied when key.endswith("_range") (lines 162-164). -/
def stripRangeSuffix (k : String) : String :=
  if "_range".data.isSuffixOf k.data then String.mk (k.data.take (k.data.length - 6))
  else k

/-- One declared sweep parameter value: a range object (a dict in the YAML)
or any other scalar value. -/
inductive SweepEntry where
  | scalar (v : Value)
  | range (r : RangeSpec)
  deriving DecidableEq, Repr

/-- Per-parameter value list (lines 166-186): a dict value is expanded by the
range loop; any other value becomes the one-element list.  An error or
divergence of the loop aborts generation. -/
def sweepEntryValues (fuel : Nat) : SweepEntry → Option (List Value)
  | .scalar v => some [v]
  | .range r =>
    match sweepValues fuel r with
    | .ok vs => some (vs.map (fun n => Value.num (n : ℚ)))
    | _ => none

/-- Python dict insertion: overwrite in place when the key exists, else
append at the end. -/
def dictInsert {α : Type} (d : List (String × α)) (k : String) (v : α) :
    List (String × α) :=
  if d.any (fun kv => decide (kv.1 = k)) then
    d.map (fun kv => if kv.1 = k then (k, v) else kv)
  else d ++ [(k, v)]

/-- The param_sets accumulation loop over the declared sweep parameters of
one sweep group. -/
def buildParamSetsGo (fuel : Nat) :
    List (String × SweepEntry) → List (String × List Value) →
    Option (List (String × List Value))
  | [], d => some d
  | (k, e) :: rest, d =>
    match sweepEntryValues fuel e with
    | none => none
    | some vs => buildParamSetsGo fuel rest (dictInsert d (stripRangeSuffix k) vs)

/-- param_sets for one sweep group, starting from the empty dict. -/
def buildParamSets (fuel : Nat) (sweep : List (String × SweepEntry)) :
    Option (List (String × List Value)) :=
  buildParamSetsGo fuel sweep []

/-- itertools.product over the per-parameter value lists combined with
dict(zip(param_names, values)) (lines 188-192): the first declared parameter
varies slowest. -/
def combinations : List (String × List Value) → List Record
  | [] => [[]]
  | (k, vs) :: rest =>
    (vs.map (fun v => (combinations rest).map (fun ps => (k, v) :: ps))).flatten

/-- Every generated combination binds exactly the keys of param_sets, in
declaration order. -/
lemma combinations_keys (psets : List (String × List Value)) :
    ∀ ps ∈ combinations psets, ps.map Prod.fst = psets.map Prod.fst := by
  induction psets with
  | nil =>
    intro ps hps
    simp only [combinations, List.mem_singleton] at hps
    subst hps
    rfl
  | cons a rest ih =>
    obtain ⟨k, vs⟩ := a
    intro ps hps
    simp only [combinations, List.mem_flatten, List.mem_map] at hps
    obtain ⟨l, ⟨v, hv, rfl⟩, hps⟩ := hps
    obtain ⟨ps', hps', rfl⟩ := List.mem_map.mp hps
    simp [ih ps' hps']

/-- Inserting a fresh key appends it. -/
lemma dictInsert_not_mem {α : Type} (d : List (String × α)) (k : String) (v : α)
    (h : k ∉ d.map Prod.fst) : dictInsert d k v = d ++ [(k, v)] := by
  have h' : ¬(d.any (fun kv => decide (kv.1 = k)) = true) := by
    intro hc
    obtain ⟨kv, hkv, he⟩ := List.any_eq_true.mp hc
    rw [decide_eq_true_eq] at he
    exact h (he ▸ List.mem_map_of_mem Prod.fst hkv)
  unfold dictInsert
  rw [if_neg h']

/-- The key sequence of the accumulated param_sets dict: when the stripped
declared names are distinct and disjoint from the accumulator, they are
appended in declaration order. -/
lemma buildParamSetsGo_keys (fuel : Nat) :
    ∀ (sweep : List (String × SweepEntry)) (d psets : List (String × List Value)),
      (∀ ke ∈ sweep, stripRangeSuffix ke.1 ∉ d.map Prod.fst) →
      (sweep.map (fun ke => stripRangeSuffix ke.1)).Nodup →
      buildParamSetsGo fuel sweep d = some psets →
      psets.map Prod.fst = d.map Prod.fst ++ sweep.map (fun ke => stripRangeSuffix ke.1) := by
  intro sweep
  induction sweep with
  | nil =>
    intro d psets _ _ hb
    simp only [buildParamSetsGo, Option.some.injEq] at hb
    subst hb
    simp
  | cons ke rest ih =>
    intro d psets hdisj hnd hb
    obtain ⟨k0, e⟩ := ke
    simp only [List.map_cons, List.nodup_cons] at hnd
    cases hev : sweepEntryValues fuel e with
    | none =>
      rw [show buildParamSetsGo fuel ((k0, e) :: rest) d
          = match sweepEntryValues fuel e with
            | none => none
            | some vs => buildParamSetsGo fuel rest (dictInsert d (stripRangeSuffix k0) vs)
          from rfl, hev] at hb
      exact absurd hb (by simp)
    | some vs =>
      rw [show buildParamSetsGo fuel ((k0, e) :: rest) d
          = match sweepEntryValues fuel e with
            | none => none
            | some vs => buildParamSetsGo fuel rest (dictInsert d (stripRangeSuffix k0) vs)
          from rfl, hev] at hb
      have hb2 : buildParamSetsGo fuel rest (dictInsert d (stripRangeSuffix k0) vs)
          = some psets := hb
      have hknotin : stripRangeSuffix k0 ∉ d.map Prod.fst :=
        hdisj (k0, e) (List.mem_cons_self _ _)
      rw [dictInsert_not_mem d _ vs hknotin] at hb2
      have hd' : ∀ ke' ∈ rest,
          stripRangeSuffix ke'.1 ∉ (d ++ [(stripRangeSuffix k0, vs)]).map Prod.fst := by
        intro ke' hke'
        rw [List.map_append, List.mem_append]
        rintro (hin | hin)
        · exact hdisj ke' (List.mem_cons_of_mem _ hke') hin
        · have heq : stripRangeSuffix ke'.1 = stripRangeSuffix k0 := by simpa using hin
          exact hnd.1 (heq ▸ List.mem_map_of_mem (fun ke => stripRangeSuffix ke.1) hke')
      have hres := ih (d ++ [(stripRangeSuffix k0, vs)]) psets hd' hnd.2 hb2
      rw [hres, List.map_append]
      simp

/-- C10 (confirmed): when the stripped declared names are distinct, the keys
of the generated param_sets dict are exactly the declared names with a
trailing _range removed (all other names unchanged), in declaration order,
and every generated ParameterSet binds exactly those keys. -/
theorem generated_param_keys (fuel : Nat) (sweep : List (String × SweepEntry))
    (hnodup : (sweep.map (fun ke => stripRangeSuffix ke.1)).Nodup)
    (psets : List (String × List Value))
    (hb : buildParamSets fuel sweep = some psets) :
    psets.map Prod.fst = sweep.map (fun ke => stripRangeSuffix ke.1) ∧
    (combinations psets).all
      (fun ps => decide
        (ps.map Prod.fst = sweep.map (fun ke => stripRangeSuffix ke.1))) = true := by
  have hkeys := buildParamSetsGo_keys fuel sweep [] psets (by simp) hnodup hb
  simp only [List.map_nil, List.nil_append] at hkeys
  refine ⟨hkeys, ?_⟩
  rw [List.all_eq_true]
  intro ps hps
  rw [decide_eq_true_eq, combinations_keys psets ps hps, hkeys]

/-- The sweep group of the C10 witness: a swept size_range and a scalar dtype. -/
def sweepGroup : List (String × SweepEntry) :=
  [("size_range", .range ⟨128, 512, some 2, none⟩), ("dtype", .scalar (.str "bf16"))]

/-- Witness for the C10 theorem on the concrete sweep group. -/
theorem generated_param_keys_witness :
    (sweepGroup.map (fun ke => stripRangeSuffix ke.1)).Nodup ∧
    buildParamSets 386 sweepGroup =
      some [("size", [.num 128, .num 256, .num 512]), ("dtype", [.str "bf16"])] ∧
    ([("size", [Value.num 128, .num 256, .num 512]),
      ("dtype", [Value.str "bf16"])].map Prod.fst
        = sweepGroup.map (fun ke => stripRangeSuffix ke.1) ∧
     (combinations [("size", [Value.num 128, .num 256, .num 512]),
        ("dtype", [Value.str "bf16"])]).all
        (fun ps => decide
          (ps.map Prod.fst = sweepGroup.map (fun ke => stripRangeSuffix ke.1))) = true) :=
  ⟨by decide, by decide,
   generated_param_keys 386 sweepGroup (by decide)
     [("size", [.num 128, .num 256, .num 512]), ("dtype", [.str "bf16"])] (by decide)⟩
